import Mathlib

/-
Verification development for the mock-server repository.

The repository generates synthetic JSON data from declarative templates
(createMockData in core/factoryCore.js, processTemplate in utils/dataUtils.js),
runs one generation task per factory file through a bounded worker pool
(runWithWorkers in utils/workerUtils.js), extracts the expected entity keys by
scanning factory sources (extractFactoryKeys in core/factoryCore.js), and merges
the per-entity JSON documents into one consolidated document
(mergeJsonFiles in the runner).

This file gives a shallow embedding of those functions over a model of JSON
values and proves properties about them.  JavaScript numbers are modelled as
rationals, JavaScript objects as ordered association lists together with the
object-literal construction semantics (spread, in-place value update keeping
the first insertion position, deletion).
-/

set_option maxHeartbeats 1000000
set_option maxRecDepth 100000

namespace MockServer

/-! ## Data model -/

/-- A JSON-like JavaScript value: the data produced by the generator.
Numbers are modelled as rationals; objects as ordered field lists whose
order is JavaScript property insertion order. -/
inductive JsVal where
  | null
  | boolVal (b : Bool)
  | num (q : ℚ)
  | str (s : String)
  | arr (elems : List JsVal)
  | obj (fields : List (String × JsVal))

/-- Field names of an object field list, in order. -/
def keysOf (fs : List (String × JsVal)) : List String :=
  fs.map (fun p => p.1)

/-- JavaScript delete of field k from an object. -/
def objDelete (fs : List (String × JsVal)) (k : String) : List (String × JsVal) :=
  fs.filter (fun p => p.1 ≠ k)

/-- Defining property k with value v on an object: if the key is already present
its value is updated in place (the key keeps its original position, as in
JavaScript object semantics); otherwise the field is appended. -/
def setField (fs : List (String × JsVal)) (k : String) (v : JsVal) : List (String × JsVal) :=
  if k ∈ keysOf fs then fs.map (fun p => if p.1 = k then (k, v) else p)
  else fs ++ [(k, v)]

/-- Spreading the fields src into an object literal that already holds base:
the semantics of a JavaScript object literal listing base and then spreading
src. -/
def objSpreadInto (base src : List (String × JsVal)) : List (String × JsVal) :=
  src.foldl (fun acc p => setField acc p.1 p.2) base

/-- The enumerable own fields contributed when a value is spread into an object
literal: objects contribute their fields, arrays and strings contribute
index-keyed entries, primitives contribute nothing. -/
def spreadFields : JsVal → List (String × JsVal)
  | JsVal.obj fs => fs
  | JsVal.arr l => l.enum.map (fun p => (toString p.1, p.2))
  | JsVal.str s => s.data.enum.map (fun p => (toString p.1, JsVal.str (String.mk [p.2])))
  | _ => []

/-- Field lookup on an object value. -/
def objField : JsVal → String → Option JsVal
  | JsVal.obj fs, k => fs.lookup k
  | _, _ => none

/-- Whether an object value has a field of the given name. -/
def hasField : JsVal → String → Bool
  | JsVal.obj fs, k => fs.any (fun p => p.1 = k)
  | _, _ => false

/-- The records contained in a materialized value: the elements of a sequence,
or the single value itself. -/
def recordsOf : JsVal → List JsVal
  | JsVal.arr l => l
  | v => [v]

/-- The records stored under the (sole) entity key of an entity document. -/
def recordsUnderKey : JsVal → List JsVal
  | JsVal.obj ((_, d) :: _) => recordsOf d
  | v => recordsOf v

/-- A valid entity document: an object with exactly one top-level field. -/
def isEntityDoc : JsVal → Bool
  | JsVal.obj [_] => true
  | _ => false

/-! ## createMockData (core/factoryCore.js) and monFactory.create (monFactory.js) -/

/-- The configuration object passed to createMockData.
keyField models the optional property named underscore-key and repeatField the
optional numeric property named underscore-repeat (its presence distinguishes
an explicit repeat from an absent one). -/
structure FactoryConfig where
  keyField : Option JsVal
  repeatField : Option ℚ

/-- Result of createMockData: the entity key together with the data object
that nests the materialized records under that key. -/
structure MockResult where
  key : String
  data : JsVal

/-- The JavaScript test for configuration keys that trim to the empty string:
a string trims to the empty string exactly when every character is whitespace,
and that form is used here because it is directly computable. -/
def trimsToEmpty (s : String) : Bool :=
  s.data.all (fun c => c.isWhitespace)

/-- One materialized record: the JavaScript steps are a spread copy of the
template output, deletion of the reserved repeat field, then an object literal
that lists an id of i + 1 first and spreads the copy. -/
def mkItem (templateOut : List (String × JsVal)) (i : Nat) : List (String × JsVal) :=
  objSpreadInto [("id", JsVal.num ((i : ℚ) + 1))]
    (objDelete (objSpreadInto [] templateOut) "_repeat")

/-- createMockData from core/factoryCore.js: validates the key, computes the
count with the JavaScript default (a falsy repeat value of 0 defaults the count
to 1), rejects a negative count, and produces either an array of records (when
the repeat field is present or the count exceeds 1) or a single record.
The array length is the JavaScript ToLength of the count (floor, here applied
to a nonnegative rational). -/
def createMockData (config : FactoryConfig)
    (templateFn : Nat → List (String × JsVal)) : Except String MockResult :=
  match config.keyField with
  | none => .error "the key must be specified in configuration"
  | some kv =>
    match kv with
    | JsVal.str s =>
      if trimsToEmpty s then .error "the key cannot be empty or a non-string value"
      else
        let hasExplicitRepeat : Bool := config.repeatField.isSome
        let count : ℚ :=
          match config.repeatField with
          | some r => if r = 0 then 1 else r
          | none => 1
        if count < 0 then .error "the repeat value cannot be negative"
        else
          let data : JsVal :=
            if hasExplicitRepeat = true ∨ count > 1 then
              JsVal.arr ((List.range (Int.toNat ⌊count⌋)).map
                (fun i => JsVal.obj (mkItem (templateFn i) i)))
            else
              JsVal.obj (mkItem (templateFn 0) 0)
          .ok ⟨s, JsVal.obj [(s, data)]⟩
    | _ => .error "the key cannot be empty or a non-string value"

/-- configManager.getRepeatForEntity: the per-entity override from the
entities section of the configuration, or the factory default repeat. -/
def getRepeatForEntity (entities : String → Option ℚ) (defaultRepeat : ℚ)
    (entityKey : String) : ℚ :=
  match entities entityKey with
  | some r => r
  | none => defaultRepeat

/-- The default value of the configuration entry factory.defaultRepeat
(config/configManager.js). -/
def factoryDefaultRepeat : ℚ := 10

/-- monFactory.create: applies the configured repeat override (only when the
factory file did not set an explicit repeat and the configured value is truthy,
that is, a nonzero number) and delegates to createMockData.  The file-writing
side effects are outside this model. -/
def monFactoryCreate (entities : String → Option ℚ) (defaultRepeat : ℚ)
    (config : FactoryConfig) (templateFn : Nat → List (String × JsVal)) :
    Except String MockResult :=
  let configuredRepeat : ℚ :=
    match config.keyField with
    | some (JsVal.str s) => getRepeatForEntity entities defaultRepeat s
    | _ => defaultRepeat
  let effectiveConfig : FactoryConfig :=
    if config.repeatField.isNone ∧ configuredRepeat ≠ 0 then
      ⟨config.keyField, some configuredRepeat⟩
    else config
  createMockData effectiveConfig templateFn

/-- Accessor used to state counterexamples: the id field of the first record of
the sequence stored under the given key of a successful result. -/
def firstRecordIdOf (e : Except String MockResult) : Option JsVal :=
  match e with
  | .ok r =>
    match objField r.data r.key with
    | some (JsVal.arr (r0 :: _)) => objField r0 "id"
    | _ => none
  | .error _ => none

/-! ## processTemplate and generateData (utils/dataUtils.js) -/

/-- A template: a scalar value, a generator function (invoked with the
repetition index, its return value substituted unprocessed), a sequence of
templates, or a mapping from field names to templates. -/
inductive Tmpl where
  | lit (v : JsVal)
  | gen (f : Nat → JsVal)
  | arr (elems : List Tmpl)
  | obj (fields : List (String × Tmpl))

/-- The JavaScript in-test for the reserved repeat field on a mapping. -/
def hasRepeatKey (fields : List (String × Tmpl)) : Bool :=
  fields.any (fun p => p.1 = "_repeat")

/-- The value of the reserved repeat field when it is a literal number;
any other shape fails the typeof-number test of processTemplate. -/
def repeatValueOf (fields : List (String × Tmpl)) : Option ℚ :=
  match fields.lookup "_repeat" with
  | some (Tmpl.lit (JsVal.num q)) => some q
  | _ => none

/-- Rest-destructuring that removes the reserved repeat field from a mapping. -/
def removeRepeatKey (fields : List (String × Tmpl)) : List (String × Tmpl) :=
  fields.filter (fun p => p.1 ≠ "_repeat")

/-- One level of array flattening, as applied by flatMap to each value returned
from the per-element callback. -/
def flattenOne : JsVal → List JsVal
  | JsVal.arr l => l
  | v => [v]

mutual

/-- processTemplate from utils/dataUtils.js.  Arrays expand each element
(splicing repeat expansions and flattening returned arrays one level, as
flatMap does), mappings expand each field recursively while skipping the
reserved repeat field, generator functions are invoked with the repetition
index, and any other value is returned unchanged.

In the repeat case the source invokes the expansion callback once per
repetition with identical arguments; in this pure embedding those calls all
return the same value, so the resulting sub-sequence is a replicate of the
single expansion (and an error in that expansion fails the whole call exactly
as the first thrown callback does in the source). -/
def processTemplate : Tmpl → Nat → Except String JsVal
  | Tmpl.arr elems, index => (processArr elems index).map JsVal.arr
  | Tmpl.obj fields, index => (processObj fields index).map JsVal.obj
  | Tmpl.gen f, index => .ok (f index)
  | Tmpl.lit v, _ => .ok v
termination_by t _ => sizeOf t
decreasing_by
  all_goals simp_wf

/-- The flatMap over the elements of an array template. -/
def processArr : List Tmpl → Nat → Except String (List JsVal)
  | [], _ => .ok []
  | Tmpl.obj fields :: rest, index =>
    if hasRepeatKey fields then
      match repeatValueOf fields with
      | some q =>
        if q < 1 then
          .error "invalid repeat value in array: it must be a positive number"
        else do
          let v ← processTemplate (Tmpl.obj (removeRepeatKey fields)) index
          let tailParts ← processArr rest index
          .ok (List.replicate (Int.toNat ⌊q⌋) v ++ tailParts)
      | none => .error "invalid repeat value in array: it must be a positive number"
    else do
      let v ← processTemplate (Tmpl.obj fields) index
      let tailParts ← processArr rest index
      .ok (flattenOne v ++ tailParts)
  | entry :: rest, index => do
    let v ← processTemplate entry index
    let tailParts ← processArr rest index
    .ok (flattenOne v ++ tailParts)
termination_by l _ => sizeOf l
decreasing_by
  all_goals simp_wf
  all_goals try omega
  have hfil : ∀ (l : List (String × Tmpl)), sizeOf (removeRepeatKey l) ≤ sizeOf l := by
    intro l
    unfold removeRepeatKey
    induction l with
    | nil => simp
    | cons a t ih =>
      rw [List.filter_cons]
      by_cases hpa : a.1 ≠ "_repeat"
      · rw [if_pos (by simpa using hpa)]
        simp only [List.cons.sizeOf_spec]
        omega
      · rw [if_neg (by simpa using hpa)]
        simp only [List.cons.sizeOf_spec]
        omega
  have h := hfil fields
  omega

/-- The for-in loop over the fields of a mapping template, skipping the
reserved repeat field. -/
def processObj : List (String × Tmpl) → Nat → Except String (List (String × JsVal))
  | [], _ => .ok []
  | (k, t) :: rest, index =>
    if k = "_repeat" then processObj rest index
    else do
      let v ← processTemplate t index
      let tailFields ← processObj rest index
      .ok ((k, v) :: tailFields)
termination_by l _ => sizeOf l
decreasing_by
  all_goals simp_wf
  all_goals omega

end

/-- generateData from utils/dataUtils.js: expand the template and build an
object literal with an id of index + 1 followed by the spread of the result. -/
def generateData (t : Tmpl) (index : Nat) : Except String JsVal :=
  (processTemplate t index).map (fun item =>
    JsVal.obj (objSpreadInto [("id", JsVal.num ((index : ℚ) + 1))] (spreadFields item)))

/-! ## mergeJsonFiles (runner, stale-file removing version) -/

/-- JavaScript Object.keys: fields of an object, index keys of an array or a
string, nothing for other primitives; a TypeError on null. -/
def jsObjectKeys : JsVal → Except String (List String)
  | JsVal.null => .error "TypeError: cannot convert null to object"
  | JsVal.obj fs => .ok (keysOf fs)
  | JsVal.arr l => .ok ((List.range l.length).map (fun i => toString i))
  | JsVal.str s => .ok ((List.range s.length).map (fun i => toString i))
  | _ => .ok []

/-- Outcome of a merge run over a model of the documents directory:
the merged object, the files still present afterwards, and the names of the
deleted (stale) files. -/
structure MergeOutcome where
  merged : List (String × JsVal)
  remaining : List (String × JsVal)
  removed : List String

/-- The loop of mergeJsonFiles: for each document file, inspect its first
top-level key; when that key is among the factory keys, spread the whole file
content into the merged accumulator, otherwise delete the file.  A file whose
key inspection raises (a null document) aborts the merge, as the source has no
per-file catch in this version. -/
def mergeGo (factoryKeys : List String) :
    List (String × JsVal) → List (String × JsVal) → Except String MergeOutcome
  | [], merged => .ok ⟨merged, [], []⟩
  | (fname, fileData) :: rest, merged =>
    match jsObjectKeys fileData with
    | .error e => .error e
    | .ok ks =>
      match ks.head? with
      | some fileKey =>
        if fileKey ∈ factoryKeys then
          match mergeGo factoryKeys rest
              (objSpreadInto (objSpreadInto [] merged) (spreadFields fileData)) with
          | .error e => .error e
          | .ok out => .ok ⟨out.merged, (fname, fileData) :: out.remaining, out.removed⟩
        else
          match mergeGo factoryKeys rest merged with
          | .error e => .error e
          | .ok out => .ok ⟨out.merged, out.remaining, fname :: out.removed⟩
      | none =>
        match mergeGo factoryKeys rest merged with
        | .error e => .error e
        | .ok out => .ok ⟨out.merged, out.remaining, fname :: out.removed⟩

/-- mergeJsonFiles from the runner: fold the document files into an initially
empty merged object, removing stale files along the way. -/
def mergeJsonFiles (factoryKeys : List String) (files : List (String × JsVal)) :
    Except String MergeOutcome :=
  mergeGo factoryKeys files []

/-! ## extractFactoryKeys (core/factoryCore.js, fallback version) -/

/-- A model of the file system accesses made by extractFactoryKeys: the
directory listing of the factory folder (none models a read failure), the
fallback listing under the current working directory, and per-file read
results (none models a read failure). -/
structure ExtractFs where
  primaryDir : Option (List String)
  cwdDir : Option (List String)
  readFile : String → Option String

/-- The filename test of the pattern matching files ending in .js, modelled as
a suffix test on the character list. -/
def jsFileTest (f : String) : Bool :=
  List.isSuffixOf ".js".data f.data

/-- Adding a key to the key set (JavaScript Set.add keeps insertion order and
ignores duplicates). -/
def addKey (keys : List String) (k : String) : List String :=
  if k ∈ keys then keys else keys ++ [k]

/-- extractFactoryKeys from core/factoryCore.js: list the factory folder
(falling back to the working directory listing), and for each .js file read it
and extract the declared key; a file whose read fails is skipped, and if both
directory listings fail the outer catch returns an empty key set.  The regular
expression that extracts the declared key from the file text is abstracted as
the matchKey parameter. -/
def extractFactoryKeys (fsm : ExtractFs) (matchKey : String → Option String) :
    List String :=
  let jsFiles? : Option (List String) :=
    match fsm.primaryDir with
    | some files => some (files.filter (fun f => jsFileTest f))
    | none =>
      match fsm.cwdDir with
      | some files => some (files.filter (fun f => jsFileTest f))
      | none => none
  match jsFiles? with
  | none => []
  | some jsFiles =>
    jsFiles.foldl (fun keys file =>
      match fsm.readFile file with
      | some content =>
        match matchKey content with
        | some k => addKey keys k
        | none => keys
      | none => keys) []

/-! ## runWithWorkers (utils/workerUtils.js) -/

/-- State of the worker pool.  queue is the pending task queue; live holds the
workers in the active set that will still produce an event the pool reacts to;
stuck holds the workers that posted an error-status message (the message
handler only reacts to completed-status messages, and such a worker then exits
with code zero, so it stays in the active set forever); completed and failedEv
record handled outcomes (completed-status messages and worker error events);
resolvedFlag records whether the pool promise has resolved. -/
structure PoolState where
  queue : List Nat
  live : List Nat
  stuck : List Nat
  completed : List Nat
  failedEv : List Nat
  resolvedFlag : Bool

/-- Pool initialization in runWithWorkers: the worker count is the given
maximum (or the CPU count when the argument is left undefined) capped at the
number of files; the initial batch is spliced off the queue and started, and
the promise resolves immediately when that batch is empty. -/
def poolInit (files : List Nat) (maxWorkers : Option Nat) (cpuCount : Nat) : PoolState :=
  let workerCount := Nat.min (maxWorkers.getD cpuCount) files.length
  let initialBatch := files.take workerCount
  ⟨files.drop workerCount, initialBatch, [], [], [], initialBatch.isEmpty⟩

/-- workerCompleteHandler in runWithWorkers: drop the worker from the active
set, record its outcome, then either start the next queued task or, when the
queue is empty and no worker remains in the active set, resolve. -/
def handleWorkerDone (s : PoolState) (w : Nat) (ok : Bool) : PoolState :=
  let live' := s.live.erase w
  let completed' := if ok then w :: s.completed else s.completed
  let failed' := if ok then s.failedEv else w :: s.failedEv
  match s.queue with
  | next :: restQ => ⟨restQ, next :: live', s.stuck, completed', failed', s.resolvedFlag⟩
  | [] => ⟨[], live', s.stuck, completed', failed',
      s.resolvedFlag || (live'.isEmpty && s.stuck.isEmpty)⟩

/-- The events the pool can react to: a completed-status message or a worker
error event both run the completion handler, while an error-status message
(posted by factoryWorker.js when the factory file throws) matches no branch of
the message handler, after which the worker exits with code zero and is never
removed from the active set. -/
inductive PoolStep : PoolState → PoolState → Prop where
  | completeMsg (s : PoolState) (w : Nat) (h : w ∈ s.live) :
      PoolStep s (handleWorkerDone s w true)
  | errorEvent (s : PoolState) (w : Nat) (h : w ∈ s.live) :
      PoolStep s (handleWorkerDone s w false)
  | errorMessage (s : PoolState) (w : Nat) (h : w ∈ s.live) :
      PoolStep s ⟨s.queue, s.live.erase w, w :: s.stuck, s.completed, s.failedEv, s.resolvedFlag⟩

/-! ## Association-list lemmas about the object-literal operations -/

theorem keysOf_map_update (fs : List (String × JsVal)) (k : String) (v : JsVal) :
    keysOf (fs.map (fun p => if p.1 = k then (k, v) else p)) = keysOf fs := by
  induction fs with
  | nil => rfl
  | cons p rest ih =>
    unfold keysOf at *
    by_cases hp : p.1 = k
    · simp [hp, ih]
    · simp [hp, ih]

theorem keysOf_setField (fs : List (String × JsVal)) (k : String) (v : JsVal) :
    keysOf (setField fs k v) = if k ∈ keysOf fs then keysOf fs else keysOf fs ++ [k] := by
  unfold setField
  by_cases h : k ∈ keysOf fs
  · simp [h, keysOf_map_update]
  · simp only [h, if_false]
    unfold keysOf
    simp

theorem mem_keysOf_setField (fs : List (String × JsVal)) (k : String) (v : JsVal) (k' : String) :
    k' ∈ keysOf (setField fs k v) ↔ k' ∈ keysOf fs ∨ k' = k := by
  rw [keysOf_setField]
  by_cases h : k ∈ keysOf fs
  · simp only [h, if_true]
    constructor
    · exact Or.inl
    · rintro (h' | rfl)
      · exact h'
      · exact h
  · simp [h, List.mem_append]

theorem mem_keysOf_objSpreadInto (base src : List (String × JsVal)) (k : String) :
    k ∈ keysOf (objSpreadInto base src) ↔ k ∈ keysOf base ∨ k ∈ keysOf src := by
  induction src generalizing base with
  | nil => simp [objSpreadInto, keysOf]
  | cons p rest ih =>
    have hstep : objSpreadInto base (p :: rest) = objSpreadInto (setField base p.1 p.2) rest := rfl
    rw [hstep, ih, mem_keysOf_setField]
    unfold keysOf
    simp only [List.map_cons, List.mem_cons]
    tauto

theorem objSpreadInto_eq_append (base src : List (String × JsVal))
    (hdisj : ∀ p ∈ src, p.1 ∉ keysOf base) (hnd : (keysOf src).Nodup) :
    objSpreadInto base src = base ++ src := by
  induction src generalizing base with
  | nil => simp [objSpreadInto]
  | cons p rest ih =>
    have hp1 : p.1 ∉ keysOf base := hdisj p (List.mem_cons_self p rest)
    have hset : setField base p.1 p.2 = base ++ [p] := by
      unfold setField
      rw [if_neg hp1]
    have hndk : p.1 ∉ keysOf rest ∧ (keysOf rest).Nodup := by
      unfold keysOf at hnd ⊢
      simp only [List.map_cons, List.nodup_cons] at hnd
      exact hnd
    have hdisj' : ∀ q ∈ rest, q.1 ∉ keysOf (base ++ [p]) := by
      intro q hq
      unfold keysOf
      rw [List.map_append, List.mem_append]
      push_neg
      refine ⟨hdisj q (List.mem_cons_of_mem p hq), ?_⟩
      simp only [List.map_cons, List.map_nil, List.mem_singleton]
      intro hcontra
      exact hndk.1 (hcontra ▸ List.mem_map_of_mem (fun p => p.1) hq)
    have hstep : objSpreadInto base (p :: rest) = objSpreadInto (setField base p.1 p.2) rest := rfl
    rw [hstep, hset, ih (base ++ [p]) hdisj' hndk.2]
    simp

theorem objSpreadInto_nil_left (src : List (String × JsVal)) (hnd : (keysOf src).Nodup) :
    objSpreadInto [] src = src := by
  have h := objSpreadInto_eq_append [] src (by intro p _; simp [keysOf]) hnd
  simpa using h

theorem keysOf_objDelete (fs : List (String × JsVal)) (k k' : String) :
    k' ∈ keysOf (objDelete fs k) ↔ k' ∈ keysOf fs ∧ k' ≠ k := by
  unfold objDelete keysOf
  constructor
  · intro h
    simp only [List.mem_map] at h
    obtain ⟨p, hp, rfl⟩ := h
    rw [List.mem_filter] at hp
    refine ⟨List.mem_map_of_mem (fun p => p.1) hp.1, by simpa using hp.2⟩
  · rintro ⟨hmem, hne⟩
    simp only [List.mem_map] at hmem ⊢
    obtain ⟨p, hp, rfl⟩ := hmem
    exact ⟨p, List.mem_filter.mpr ⟨hp, by simpa using hne⟩, rfl⟩

theorem nodup_keysOf_objDelete (fs : List (String × JsVal)) (k : String)
    (hnd : (keysOf fs).Nodup) : (keysOf (objDelete fs k)).Nodup := by
  unfold keysOf at hnd
  unfold objDelete keysOf
  exact hnd.sublist ((List.filter_sublist fs).map (fun p => p.1))

theorem objDelete_eq_self (fs : List (String × JsVal)) (k : String)
    (h : k ∉ keysOf fs) : objDelete fs k = fs := by
  unfold objDelete
  apply List.filter_eq_self.mpr
  intro p hp
  have hmem : p.1 ∈ keysOf fs := List.mem_map_of_mem (fun p => p.1) hp
  simp only [ne_eq, decide_eq_true_eq]
  intro hcontra
  exact h (hcontra ▸ hmem)

/-- The canonical form of a materialized record when the template output has
pairwise distinct field names and no id field of its own. -/
theorem mkItem_eq (templateOut : List (String × JsVal)) (i : Nat)
    (hnd : (keysOf templateOut).Nodup) (hid : "id" ∉ keysOf templateOut) :
    mkItem templateOut i =
      ("id", JsVal.num ((i : ℚ) + 1)) :: objDelete templateOut "_repeat" := by
  unfold mkItem
  rw [objSpreadInto_nil_left templateOut hnd]
  have hnd' := nodup_keysOf_objDelete templateOut "_repeat" hnd
  have hdisj : ∀ p ∈ objDelete templateOut "_repeat",
      p.1 ∉ keysOf [("id", JsVal.num ((i : ℚ) + 1))] := by
    intro p hp
    simp only [keysOf, List.map_cons, List.map_nil, List.mem_singleton]
    intro hcontra
    have hmem : p ∈ templateOut := List.mem_of_mem_filter hp
    exact hid (hcontra ▸ List.mem_map_of_mem (fun p => p.1) hmem)
  rw [objSpreadInto_eq_append _ _ hdisj hnd']
  rfl

/-! ## C1: single-instance creation -/

/-- C1 (amended): for a configuration whose key is a non-empty string and which
has no repeat field, createMockData produces a single mapping stored under the
entity key, whose id is 1 and whose other fields are the template output for
repetition index 0 (with any reserved repeat field removed), provided the
template output has pairwise distinct field names and no id field of its own;
and monFactory.create coincides with createMockData on such a configuration
exactly when the configured repeat value for the entity is 0 (otherwise it
injects the configured repeat, see the counterexample). -/
theorem createMockData_no_repeat_single_mapping
    (key : String) (entities : String → Option ℚ) (defaultRepeat : ℚ)
    (templateFn : Nat → List (String × JsVal))
    (hkey : trimsToEmpty key = false)
    (hnd : (keysOf (templateFn 0)).Nodup)
    (hid : "id" ∉ keysOf (templateFn 0))
    (hconf : getRepeatForEntity entities defaultRepeat key = 0) :
    createMockData ⟨some (JsVal.str key), none⟩ templateFn =
      .ok ⟨key, JsVal.obj [(key, JsVal.obj
        (("id", JsVal.num 1) :: objDelete (templateFn 0) "_repeat"))]⟩
    ∧ monFactoryCreate entities defaultRepeat ⟨some (JsVal.str key), none⟩ templateFn =
      createMockData ⟨some (JsVal.str key), none⟩ templateFn := by
  constructor
  · simp only [createMockData]
    rw [if_neg (by simp [hkey])]
    rw [if_neg (by norm_num)]
    rw [if_neg (by norm_num)]
    rw [mkItem_eq _ _ hnd hid]
    norm_num
  · simp only [monFactoryCreate]
    rw [hconf]
    simp

/-- Witness for C1: concrete configuration met by the amended theorem. -/
theorem createMockData_no_repeat_single_mapping_witness :
    trimsToEmpty "profile" = false ∧
    createMockData ⟨some (JsVal.str "profile"), none⟩ (fun _ => [("bio", JsVal.str "hi")]) =
      .ok ⟨"profile", JsVal.obj [("profile", JsVal.obj
        (("id", JsVal.num 1) :: objDelete [("bio", JsVal.str "hi")] "_repeat"))]⟩ :=
  ⟨by decide,
    (createMockData_no_repeat_single_mapping "profile" (fun _ => some 0) 10 _
      (by decide) (by decide) (by decide) (by decide)).1⟩

/-- Counterexample for C1: under the default configuration (no per-entity
override, factory.defaultRepeat of 10), monFactory.create with a descriptor
lacking a repeat field injects the configured repeat and yields an ordered
sequence of ten records, not a single mapping with id 1. -/
theorem monFactoryCreate_default_config_pluralizes_no_repeat :
    monFactoryCreate (fun _ => none) factoryDefaultRepeat
      ⟨some (JsVal.str "profile"), none⟩ (fun _ => [("bio", JsVal.str "hi")]) =
      .ok ⟨"profile", JsVal.obj [("profile", JsVal.arr ((List.range 10).map
        (fun i : ℕ => JsVal.obj [("id", JsVal.num ((i : ℚ) + 1)), ("bio", JsVal.str "hi")])))]⟩
    ∧ monFactoryCreate (fun _ => none) factoryDefaultRepeat
      ⟨some (JsVal.str "profile"), none⟩ (fun _ => [("bio", JsVal.str "hi")]) ≠
      .ok ⟨"profile", JsVal.obj [("profile", JsVal.obj
        [("id", JsVal.num 1), ("bio", JsVal.str "hi")])]⟩ := by
  have h1 : monFactoryCreate (fun _ => none) factoryDefaultRepeat
      ⟨some (JsVal.str "profile"), none⟩ (fun _ => [("bio", JsVal.str "hi")]) =
      .ok ⟨"profile", JsVal.obj [("profile", JsVal.arr ((List.range 10).map
        (fun i : ℕ => JsVal.obj [("id", JsVal.num ((i : ℚ) + 1)), ("bio", JsVal.str "hi")])))]⟩ := by
    with_unfolding_all rfl
  refine ⟨h1, ?_⟩
  rw [h1]
  simp

/-! ## C2: repeated creation with ordered ids -/

/-- C2 (amended): for a configuration with a non-empty string key and an
explicit repeat of n at least 1, createMockData produces under the entity key
an ordered sequence of exactly n records, the record at 0-based position i
carrying an injected id of i + 1 followed by the template output for
repetition index i (minus the reserved repeat field) — provided each template
output has pairwise distinct field names and no id field of its own (a
template-provided id overrides the injected one, see the counterexample). -/
theorem createMockData_repeat_yields_ordered_ids
    (n : ℕ) (key : String) (templateFn : Nat → List (String × JsVal))
    (hn : 1 ≤ n)
    (hkey : trimsToEmpty key = false)
    (htf : ∀ i, i < n → (keysOf (templateFn i)).Nodup ∧ "id" ∉ keysOf (templateFn i)) :
    createMockData ⟨some (JsVal.str key), some (n : ℚ)⟩ templateFn =
      .ok ⟨key, JsVal.obj [(key, JsVal.arr ((List.range n).map
        (fun i : ℕ => JsVal.obj (("id", JsVal.num ((i : ℚ) + 1)) ::
          objDelete (templateFn i) "_repeat"))))]⟩ := by
  have hne : ((n : ℚ)) ≠ 0 := by
    exact_mod_cast Nat.one_le_iff_ne_zero.mp hn
  simp only [createMockData]
  rw [if_neg (by simp [hkey])]
  simp only [hne, if_false]
  rw [if_neg (not_lt.mpr (by positivity))]
  have hcond : ((some ((n : ℕ) : ℚ)).isSome = true) ∨ (((n : ℕ) : ℚ) > 1) := Or.inl rfl
  rw [if_pos hcond]
  rw [Int.floor_natCast, Int.toNat_natCast]
  have hmap : (List.range n).map (fun i => JsVal.obj (mkItem (templateFn i) i)) =
      (List.range n).map (fun i : ℕ => JsVal.obj (("id", JsVal.num ((i : ℚ) + 1)) ::
        objDelete (templateFn i) "_repeat")) := by
    apply List.map_congr_left
    intro i hi
    rw [List.mem_range] at hi
    rw [mkItem_eq _ _ (htf i hi).1 (htf i hi).2]
  rw [hmap]

/-- Witness for C2: a concrete two-element expansion. -/
theorem createMockData_repeat_yields_ordered_ids_witness :
    (1 ≤ 2) ∧ trimsToEmpty "contacts" = false ∧
    createMockData ⟨some (JsVal.str "contacts"), some ((2 : ℕ) : ℚ)⟩
      (fun _ => [("name", JsVal.str "x")]) =
      .ok ⟨"contacts", JsVal.obj [("contacts", JsVal.arr ((List.range 2).map
        (fun i : ℕ => JsVal.obj (("id", JsVal.num ((i : ℚ) + 1)) ::
          objDelete [("name", JsVal.str "x")] "_repeat"))))]⟩ :=
  ⟨by norm_num, by decide,
    createMockData_repeat_yields_ordered_ids 2 "contacts" _ (by norm_num) (by decide)
      (by decide)⟩

/-- Counterexample for C2: when the template output itself contains an id
field, the spread in the source lets the template value override the injected
positional id, so the record at position 0 does not carry id 1. -/
theorem createMockData_template_id_overrides_injected_id :
    createMockData ⟨some (JsVal.str "contacts"), some 1⟩ (fun _ => [("id", JsVal.num 99)]) =
      .ok ⟨"contacts", JsVal.obj [("contacts", JsVal.arr [JsVal.obj [("id", JsVal.num 99)]])]⟩
    ∧ firstRecordIdOf (createMockData ⟨some (JsVal.str "contacts"), some 1⟩
        (fun _ => [("id", JsVal.num 99)])) ≠ some (JsVal.num 1) := by
  have h1 : firstRecordIdOf (createMockData ⟨some (JsVal.str "contacts"), some 1⟩
      (fun _ => [("id", JsVal.num 99)])) = some (JsVal.num 99) := by
    with_unfolding_all rfl
  refine ⟨by with_unfolding_all rfl, ?_⟩
  rw [h1]
  simp only [ne_eq, Option.some.injEq, JsVal.num.injEq]
  norm_num

/-! ## C3: validation of the repeat count -/

/-- C3 (amended): createMockData fails only when the repeat field is negative;
a repeat of 0 succeeds and produces a one-record sequence (0 is falsy, so the
count defaults to 1 while the presence of the field still selects the array
branch), any positive repeat (integer or not) succeeds and produces a sequence
of floor-of-count records, and an absent repeat succeeds as a single-instance
expansion.  At the processTemplate level, an array element whose reserved
repeat field is not a number or is below 1 does fail with a validation
error. -/
theorem createMockData_repeat_validation_behavior :
    (∀ (key : String) (templateFn : Nat → List (String × JsVal)) (r : ℚ),
      trimsToEmpty key = false → r < 0 →
      createMockData ⟨some (JsVal.str key), some r⟩ templateFn =
        .error "the repeat value cannot be negative")
  ∧ (∀ (key : String) (templateFn : Nat → List (String × JsVal)),
      trimsToEmpty key = false →
      createMockData ⟨some (JsVal.str key), some 0⟩ templateFn =
        .ok ⟨key, JsVal.obj [(key, JsVal.arr [JsVal.obj (mkItem (templateFn 0) 0)])]⟩)
  ∧ (∀ (key : String) (templateFn : Nat → List (String × JsVal)) (r : ℚ),
      trimsToEmpty key = false → 0 < r →
      createMockData ⟨some (JsVal.str key), some r⟩ templateFn =
        .ok ⟨key, JsVal.obj [(key, JsVal.arr ((List.range (Int.toNat ⌊r⌋)).map
          (fun i => JsVal.obj (mkItem (templateFn i) i))))]⟩)
  ∧ (∀ (key : String) (templateFn : Nat → List (String × JsVal)),
      trimsToEmpty key = false →
      createMockData ⟨some (JsVal.str key), none⟩ templateFn =
        .ok ⟨key, JsVal.obj [(key, JsVal.obj (mkItem (templateFn 0) 0))]⟩)
  ∧ (∀ (fields : List (String × Tmpl)) (rest : List Tmpl) (index : Nat),
      hasRepeatKey fields = true →
      (repeatValueOf fields = none ∨ ∃ q, repeatValueOf fields = some q ∧ q < 1) →
      processTemplate (Tmpl.arr (Tmpl.obj fields :: rest)) index =
        .error "invalid repeat value in array: it must be a positive number") := by
  refine ⟨?_, ?_, ?_, ?_, ?_⟩
  · intro key templateFn r hkey hr
    simp only [createMockData]
    rw [if_neg (by simp [hkey])]
    rw [if_neg (ne_of_lt hr)]
    rw [if_pos hr]
  · intro key templateFn hkey
    simp only [createMockData]
    rw [if_neg (by simp [hkey])]
    norm_num
    rfl
  · intro key templateFn r hkey hr
    simp only [createMockData]
    rw [if_neg (by simp [hkey])]
    rw [if_neg (ne_of_gt hr)]
    rw [if_neg (not_lt.mpr (le_of_lt hr))]
    have hcond : ((some r).isSome = true) ∨ (r > 1) := Or.inl rfl
    rw [if_pos hcond]
  · intro key templateFn hkey
    simp only [createMockData]
    rw [if_neg (by simp [hkey])]
    norm_num
  · intro fields rest index hhas hbad
    have harr : processArr (Tmpl.obj fields :: rest) index =
        .error "invalid repeat value in array: it must be a positive number" := by
      rcases hbad with hnone | ⟨q, hq, hlt⟩
      · simp only [processArr, hhas, if_true, hnone]
      · simp only [processArr, hhas, if_true, hq]
        rw [if_pos hlt]
    simp only [processTemplate, harr, Except.map]

/-- Witness for C3: each clause of the amended statement at a concrete input. -/
theorem createMockData_repeat_validation_behavior_witness :
    createMockData ⟨some (JsVal.str "k"), some (-3)⟩ (fun _ => []) =
      .error "the repeat value cannot be negative"
  ∧ createMockData ⟨some (JsVal.str "k"), some 0⟩ (fun _ => []) =
      .ok ⟨"k", JsVal.obj [("k", JsVal.arr [JsVal.obj (mkItem [] 0)])]⟩
  ∧ createMockData ⟨some (JsVal.str "k"), some (5/2)⟩ (fun _ => []) =
      .ok ⟨"k", JsVal.obj [("k", JsVal.arr ((List.range (Int.toNat ⌊(5/2 : ℚ)⌋)).map
        (fun i => JsVal.obj (mkItem [] i))))]⟩
  ∧ createMockData ⟨some (JsVal.str "k"), none⟩ (fun _ => []) =
      .ok ⟨"k", JsVal.obj [("k", JsVal.obj (mkItem [] 0))]⟩
  ∧ processTemplate (Tmpl.arr [Tmpl.obj [("_repeat", Tmpl.lit (JsVal.num 0))]]) 0 =
      .error "invalid repeat value in array: it must be a positive number" :=
  ⟨createMockData_repeat_validation_behavior.1 "k" (fun _ => []) (-3) (by decide) (by norm_num),
   createMockData_repeat_validation_behavior.2.1 "k" (fun _ => []) (by decide),
   createMockData_repeat_validation_behavior.2.2.1 "k" (fun _ => []) (5/2) (by decide)
     (by norm_num),
   createMockData_repeat_validation_behavior.2.2.2.1 "k" (fun _ => []) (by decide),
   createMockData_repeat_validation_behavior.2.2.2.2 [("_repeat", Tmpl.lit (JsVal.num 0))]
     [] 0 (by decide) (Or.inr ⟨0, rfl, by norm_num⟩)⟩

/-- Counterexample for C3: a present repeat of 0 does not raise a validation
error in createMockData (it yields a one-element sequence), and a fractional
repeat of five halves does not raise either (it yields two records). -/
theorem createMockData_zero_and_fractional_repeat_succeed :
    createMockData ⟨some (JsVal.str "user"), some 0⟩ (fun _ => [("a", JsVal.num 5)]) =
      .ok ⟨"user", JsVal.obj [("user",
        JsVal.arr [JsVal.obj [("id", JsVal.num 1), ("a", JsVal.num 5)]])]⟩
  ∧ createMockData ⟨some (JsVal.str "user"), some (5/2)⟩ (fun _ => [("a", JsVal.num 5)]) =
      .ok ⟨"user", JsVal.obj [("user",
        JsVal.arr [JsVal.obj [("id", JsVal.num 1), ("a", JsVal.num 5)],
          JsVal.obj [("id", JsVal.num 2), ("a", JsVal.num 5)]])]⟩ :=
  ⟨by with_unfolding_all rfl, by with_unfolding_all rfl⟩

/-! ## C4: repeat expansion inside a sequence template -/

/-- C4 (amended): a sequence element that is a mapping with a reserved repeat
of n at least 1 expands into an ordered sub-sequence of n results, each
obtained by expanding the mapping minus the repeat field with the same
repetition index as the enclosing call (not 0..n-1), with no injected id, and
the sub-sequence is spliced (flattened one level) into the parent sequence. -/
theorem processTemplate_array_repeat_splices_with_same_index
    (fields : List (String × Tmpl)) (rest : List Tmpl) (index : Nat) (n : ℕ)
    (hn : 1 ≤ n)
    (hhas : hasRepeatKey fields = true)
    (hq : repeatValueOf fields = some ((n : ℕ) : ℚ))
    (v : JsVal) (tailParts : List JsVal)
    (hv : processTemplate (Tmpl.obj (removeRepeatKey fields)) index = .ok v)
    (htail : processArr rest index = .ok tailParts) :
    processTemplate (Tmpl.arr (Tmpl.obj fields :: rest)) index =
      .ok (JsVal.arr (List.replicate n v ++ tailParts)) := by
  have hnlt : ¬ (((n : ℕ) : ℚ) < 1) := by
    rw [not_lt]
    exact_mod_cast hn
  simp only [processTemplate] at hv
  simp only [processTemplate, processArr, hhas, if_true, hq]
  rw [if_neg hnlt]
  rw [hv, htail]
  rw [Int.floor_natCast, Int.toNat_natCast]
  rfl

/-- Witness for C4: a two-fold repeat of a one-field mapping inside a
singleton sequence at repetition index 7. -/
theorem processTemplate_array_repeat_splices_with_same_index_witness :
    (1 ≤ 2)
  ∧ hasRepeatKey [("a", Tmpl.lit (JsVal.num 3)), ("_repeat", Tmpl.lit (JsVal.num 2))] = true
  ∧ repeatValueOf [("a", Tmpl.lit (JsVal.num 3)), ("_repeat", Tmpl.lit (JsVal.num 2))] =
      some ((2 : ℕ) : ℚ)
  ∧ processTemplate (Tmpl.obj (removeRepeatKey
      [("a", Tmpl.lit (JsVal.num 3)), ("_repeat", Tmpl.lit (JsVal.num 2))])) 7 =
      .ok (JsVal.obj [("a", JsVal.num 3)])
  ∧ processArr [] 7 = .ok []
  ∧ processTemplate (Tmpl.arr (Tmpl.obj
      [("a", Tmpl.lit (JsVal.num 3)), ("_repeat", Tmpl.lit (JsVal.num 2))] :: [])) 7 =
      .ok (JsVal.arr (List.replicate 2 (JsVal.obj [("a", JsVal.num 3)]) ++ [])) := by
  have h2 : hasRepeatKey
      [("a", Tmpl.lit (JsVal.num 3)), ("_repeat", Tmpl.lit (JsVal.num 2))] = true := by
    decide
  have h3 : repeatValueOf
      [("a", Tmpl.lit (JsVal.num 3)), ("_repeat", Tmpl.lit (JsVal.num 2))] =
      some ((2 : ℕ) : ℚ) := by
    rfl
  have h4 : processTemplate (Tmpl.obj (removeRepeatKey
      [("a", Tmpl.lit (JsVal.num 3)), ("_repeat", Tmpl.lit (JsVal.num 2))])) 7 =
      .ok (JsVal.obj [("a", JsVal.num 3)]) := by
    simp [processTemplate, processObj, removeRepeatKey]
    rfl
  have h5 : processArr ([] : List Tmpl) 7 = .ok [] := by
    simp [processArr]
  exact ⟨by norm_num, h2, h3, h4, h5,
    processTemplate_array_repeat_splices_with_same_index _ [] 7 2 (by norm_num) h2 h3 _ _ h4 h5⟩

/-- Counterexample for C4: an element with a repeat of 2 inside a sequence,
expanded at repetition index 5, produces two identical copies expanded at
index 5 with no injected ids — not copies at indices 0 and 1 carrying ids 1
and 2 as the claim states. -/
theorem processTemplate_array_repeat_ignores_position_ids :
    processTemplate (Tmpl.arr [Tmpl.obj [("a", Tmpl.gen (fun i => JsVal.num i)),
        ("_repeat", Tmpl.lit (JsVal.num 2))]]) 5 =
      .ok (JsVal.arr [JsVal.obj [("a", JsVal.num 5)], JsVal.obj [("a", JsVal.num 5)]])
    ∧ processTemplate (Tmpl.arr [Tmpl.obj [("a", Tmpl.gen (fun i => JsVal.num i)),
        ("_repeat", Tmpl.lit (JsVal.num 2))]]) 5 ≠
      .ok (JsVal.arr [JsVal.obj [("id", JsVal.num 1), ("a", JsVal.num 0)],
        JsVal.obj [("id", JsVal.num 2), ("a", JsVal.num 1)]]) := by
  have h1 : processTemplate (Tmpl.arr [Tmpl.obj [("a", Tmpl.gen (fun i => JsVal.num i)),
      ("_repeat", Tmpl.lit (JsVal.num 2))]]) 5 =
      .ok (JsVal.arr [JsVal.obj [("a", JsVal.num 5)], JsVal.obj [("a", JsVal.num 5)]]) := by
    simp [processTemplate, processArr, processObj, hasRepeatKey, repeatValueOf,
      removeRepeatKey, flattenOne, List.lookup, List.replicate]
    rfl
  refine ⟨h1, ?_⟩
  rw [h1]
  simp

/-! ## C5 and C6: the merge run -/

/-- Invariant of the merge loop over valid entity documents: the loop
succeeds, the merged keys are the accumulator keys plus the expected keys that
have a document, and every stale document is recorded as removed. -/
theorem mergeGo_spec (keys : List String) (files : List (String × JsVal)) :
    ∀ merged : List (String × JsVal),
      (∀ p ∈ files, isEntityDoc p.2 = true) →
      ∃ out, mergeGo keys files merged = .ok out
        ∧ (∀ k, k ∈ keysOf out.merged ↔
            (k ∈ keysOf merged ∨ (k ∈ keys ∧ ∃ p, p ∈ files ∧ ∃ v, p.2 = JsVal.obj [(k, v)])))
        ∧ (∀ p ∈ files, ∀ k v, p.2 = JsVal.obj [(k, v)] → k ∉ keys → p.1 ∈ out.removed) := by
  induction files with
  | nil =>
    intro merged _
    refine ⟨⟨merged, [], []⟩, rfl, ?_, ?_⟩
    · intro k
      simp
    · intro p hp
      exact absurd hp (List.not_mem_nil p)
  | cons hd rest ih =>
    intro merged hvalid
    obtain ⟨fname, fd⟩ := hd
    have hdoc : isEntityDoc fd = true := hvalid (fname, fd) (List.mem_cons_self _ _)
    obtain ⟨k0, v0, rfl⟩ : ∃ k0 v0, fd = JsVal.obj [(k0, v0)] := by
      cases fd with
      | obj fs =>
        cases fs with
        | nil => simp [isEntityDoc] at hdoc
        | cons p t =>
          cases t with
          | nil => exact ⟨p.1, p.2, rfl⟩
          | cons q t2 => simp [isEntityDoc] at hdoc
      | null => simp [isEntityDoc] at hdoc
      | boolVal b => simp [isEntityDoc] at hdoc
      | num q => simp [isEntityDoc] at hdoc
      | str s => simp [isEntityDoc] at hdoc
      | arr l => simp [isEntityDoc] at hdoc
    have hvalid' : ∀ p ∈ rest, isEntityDoc p.2 = true :=
      fun p hp => hvalid p (List.mem_cons_of_mem _ hp)
    by_cases hin : k0 ∈ keys
    · obtain ⟨out, hout, hmem, hrem⟩ :=
        ih (objSpreadInto (objSpreadInto [] merged)
          (spreadFields (JsVal.obj [(k0, v0)]))) hvalid'
      refine ⟨⟨out.merged, (fname, JsVal.obj [(k0, v0)]) :: out.remaining, out.removed⟩,
        ?_, ?_, ?_⟩
      · simp only [mergeGo, jsObjectKeys, keysOf, List.map_cons, List.map_nil,
          List.head?_cons]
        rw [if_pos hin, hout]
      · intro k
        have hsp : k ∈ keysOf (objSpreadInto (objSpreadInto [] merged)
            (spreadFields (JsVal.obj [(k0, v0)]))) ↔ k ∈ keysOf merged ∨ k = k0 := by
          rw [mem_keysOf_objSpreadInto, mem_keysOf_objSpreadInto]
          simp [keysOf, spreadFields]
        rw [hmem k, hsp]
        constructor
        · rintro ((hk | rfl) | ⟨hkk, p, hp, v, hpv⟩)
          · exact Or.inl hk
          · exact Or.inr ⟨hin, (fname, JsVal.obj [(k, v0)]), List.mem_cons_self _ _, v0, rfl⟩
          · exact Or.inr ⟨hkk, p, List.mem_cons_of_mem _ hp, v, hpv⟩
        · rintro (hk | ⟨hkk, p, hp, v, hpv⟩)
          · exact Or.inl (Or.inl hk)
          · rcases List.mem_cons.mp hp with heq | hp'
            · subst heq
              have hpv' : JsVal.obj [(k0, v0)] = JsVal.obj [(k, v)] := hpv
              have hk0 : k0 = k := by
                injection hpv' with h3
                injection h3 with h4 h5
                exact congrArg Prod.fst h4
              exact Or.inl (Or.inr hk0.symm)
            · exact Or.inr ⟨hkk, p, hp', v, hpv⟩
      · intro p hp k v hpv hknot
        rcases List.mem_cons.mp hp with heq | hp'
        · exfalso
          subst heq
          have hpv' : JsVal.obj [(k0, v0)] = JsVal.obj [(k, v)] := hpv
          have hk0 : k0 = k := by
            injection hpv' with h3
            injection h3 with h4 h5
            exact congrArg Prod.fst h4
          exact hknot (hk0 ▸ hin)
        · exact hrem p hp' k v hpv hknot
    · obtain ⟨out, hout, hmem, hrem⟩ := ih merged hvalid'
      refine ⟨⟨out.merged, out.remaining, fname :: out.removed⟩, ?_, ?_, ?_⟩
      · simp only [mergeGo, jsObjectKeys, keysOf, List.map_cons, List.map_nil,
          List.head?_cons]
        rw [if_neg hin, hout]
      · intro k
        rw [hmem k]
        constructor
        · rintro (hk | ⟨hkk, p, hp, v, hpv⟩)
          · exact Or.inl hk
          · exact Or.inr ⟨hkk, p, List.mem_cons_of_mem _ hp, v, hpv⟩
        · rintro (hk | ⟨hkk, p, hp, v, hpv⟩)
          · exact Or.inl hk
          · rcases List.mem_cons.mp hp with heq | hp'
            · exfalso
              subst heq
              have hpv' : JsVal.obj [(k0, v0)] = JsVal.obj [(k, v)] := hpv
              have hk0 : k0 = k := by
                injection hpv' with h3
                injection h3 with h4 h5
                exact congrArg Prod.fst h4
              exact hin (hk0 ▸ hkk)
            · exact Or.inr ⟨hkk, p, hp', v, hpv⟩
      · intro p hp k v hpv hknot
        rcases List.mem_cons.mp hp with heq | hp'
        · subst heq
          exact List.mem_cons_self _ _
        · exact List.mem_cons_of_mem _ (hrem p hp' k v hpv hknot)

/-- C5: after a merge run over valid entity documents, the consolidated
document contains exactly the expected keys that have an entity document, and
every document whose sole top-level key is not expected is deleted and its key
is absent from the consolidated document. -/
theorem mergeJsonFiles_consolidates_exactly_expected_keys
    (keys : List String) (files : List (String × JsVal))
    (hvalid : ∀ p ∈ files, isEntityDoc p.2 = true) :
    ∃ out, mergeJsonFiles keys files = .ok out
      ∧ (∀ k, k ∈ keysOf out.merged ↔
          (k ∈ keys ∧ ∃ p, p ∈ files ∧ ∃ v, p.2 = JsVal.obj [(k, v)]))
      ∧ (∀ p ∈ files, ∀ k v, p.2 = JsVal.obj [(k, v)] → k ∉ keys →
          p.1 ∈ out.removed ∧ k ∉ keysOf out.merged) := by
  obtain ⟨out, hout, hmem, hrem⟩ := mergeGo_spec keys files [] hvalid
  refine ⟨out, hout, ?_, ?_⟩
  · intro k
    rw [hmem k]
    simp [keysOf]
  · intro p hp k v hpv hknot
    refine ⟨hrem p hp k v hpv hknot, ?_⟩
    intro hk
    rw [hmem k] at hk
    rcases hk with hk | ⟨hkk, _⟩
    · simp [keysOf] at hk
    · exact hknot hkk

/-- Witness for C5: one current document and one stale document. -/
theorem mergeJsonFiles_consolidates_exactly_expected_keys_witness :
    (∀ p ∈ [("a.json", JsVal.obj [("a", JsVal.num 1)]),
        ("b.json", JsVal.obj [("b", JsVal.num 2)])], isEntityDoc p.2 = true)
    ∧ ∃ out, mergeJsonFiles ["a"]
        [("a.json", JsVal.obj [("a", JsVal.num 1)]),
         ("b.json", JsVal.obj [("b", JsVal.num 2)])] = .ok out
      ∧ (∀ k, k ∈ keysOf out.merged ↔
          (k ∈ ["a"] ∧ ∃ p, p ∈ [("a.json", JsVal.obj [("a", JsVal.num 1)]),
            ("b.json", JsVal.obj [("b", JsVal.num 2)])] ∧
            ∃ v, p.2 = JsVal.obj [(k, v)]))
      ∧ (∀ p ∈ [("a.json", JsVal.obj [("a", JsVal.num 1)]),
          ("b.json", JsVal.obj [("b", JsVal.num 2)])],
          ∀ k v, p.2 = JsVal.obj [(k, v)] → k ∉ ["a"] →
            p.1 ∈ out.removed ∧ k ∉ keysOf out.merged) :=
  ⟨by decide,
    mergeJsonFiles_consolidates_exactly_expected_keys ["a"]
      [("a.json", JsVal.obj [("a", JsVal.num 1)]),
       ("b.json", JsVal.obj [("b", JsVal.num 2)])] (by decide)⟩

/-- Rerunning the merge loop on the surviving files reproduces the same merged
object and removes nothing. -/
theorem mergeGo_remerge (keys : List String) (files : List (String × JsVal)) :
    ∀ merged out, mergeGo keys files merged = .ok out →
      mergeGo keys out.remaining merged = .ok ⟨out.merged, out.remaining, []⟩ := by
  induction files with
  | nil =>
    intro merged out h
    have h' : (⟨merged, [], []⟩ : MergeOutcome) = out := by
      injection h
    subst h'
    rfl
  | cons hd rest ih =>
    intro merged out h
    obtain ⟨fname, fd⟩ := hd
    simp only [mergeGo] at h
    cases hks : jsObjectKeys fd with
    | error e =>
      rw [hks] at h
      simp only [] at h
      exact Except.noConfusion h
    | ok ks =>
      rw [hks] at h
      simp only [] at h
      cases hhd : ks.head? with
      | none =>
        rw [hhd] at h
        simp only [] at h
        cases hrec : mergeGo keys rest merged with
        | error e =>
          rw [hrec] at h
          simp only [] at h
          exact Except.noConfusion h
        | ok out' =>
          rw [hrec] at h
          simp only [] at h
          injection h with h2
          subst h2
          exact ih merged out' hrec
      | some fileKey =>
        rw [hhd] at h
        simp only [] at h
        by_cases hin : fileKey ∈ keys
        · rw [if_pos hin] at h
          cases hrec : mergeGo keys rest
              (objSpreadInto (objSpreadInto [] merged) (spreadFields fd)) with
          | error e =>
            rw [hrec] at h
            simp only [] at h
            exact Except.noConfusion h
          | ok out' =>
            rw [hrec] at h
            simp only [] at h
            injection h with h2
            subst h2
            simp only [mergeGo]
            rw [hks]
            simp only []
            rw [hhd]
            simp only []
            rw [if_pos hin]
            rw [ih _ out' hrec]
        · rw [if_neg hin] at h
          cases hrec : mergeGo keys rest merged with
          | error e =>
            rw [hrec] at h
            simp only [] at h
            exact Except.noConfusion h
          | ok out' =>
            rw [hrec] at h
            simp only [] at h
            injection h with h2
            subst h2
            exact ih merged out' hrec

/-- C6: running the merge twice over an unchanged set of documents (the
second run starts from the files the first run left in place) yields a
consolidated document with identical key-to-value content, leaves the same
files in place, and removes nothing. -/
theorem mergeJsonFiles_idempotent_on_unchanged_documents
    (keys : List String) (files : List (String × JsVal)) (o : MergeOutcome)
    (h : mergeJsonFiles keys files = .ok o) :
    mergeJsonFiles keys o.remaining = .ok ⟨o.merged, o.remaining, []⟩ :=
  mergeGo_remerge keys files [] o h

/-- Witness for C6: the merge of one current and one stale document, rerun on
the surviving file. -/
theorem mergeJsonFiles_idempotent_on_unchanged_documents_witness :
    mergeJsonFiles ["a"] (MergeOutcome.remaining
        ⟨[("a", JsVal.num 1)], [("a.json", JsVal.obj [("a", JsVal.num 1)])], ["b.json"]⟩) =
      .ok ⟨[("a", JsVal.num 1)], [("a.json", JsVal.obj [("a", JsVal.num 1)])], []⟩ :=
  mergeJsonFiles_idempotent_on_unchanged_documents ["a"]
    [("a.json", JsVal.obj [("a", JsVal.num 1)]), ("b.json", JsVal.obj [("b", JsVal.num 2)])]
    ⟨[("a", JsVal.num 1)], [("a.json", JsVal.obj [("a", JsVal.num 1)])], ["b.json"]⟩
    (by with_unfolding_all rfl)

/-! ## C7: key extraction error tolerance -/

/-- Elements on which the fold step is the identity can be filtered out of a
fold without changing its result. -/
theorem foldl_filter_of_id {α β : Type} (g : β → α → β) (p : α → Bool)
    (hid : ∀ b a, p a = false → g b a = b) :
    ∀ (l : List α) (init : β), l.foldl g init = (l.filter p).foldl g init := by
  intro l
  induction l with
  | nil => intro init; rfl
  | cons f t iht =>
    intro init
    rw [List.foldl_cons, List.filter_cons]
    cases hp : p f with
    | false =>
      rw [if_neg (by simp [hp])]
      rw [hid init f hp]
      exact iht init
    | true =>
      rw [if_pos (by simp [hp])]
      rw [List.foldl_cons]
      exact iht (g init f)

/-- C7: extractFactoryKeys skips a file whose read fails and continues with
the remaining files (removing the failing files from the listing leaves the
extracted key set unchanged), and when both directory listings fail it
returns an empty key set instead of propagating the error. -/
theorem extractFactoryKeys_skips_failed_files_and_empty_on_dir_failure
    (fsm : ExtractFs) (matchKey : String → Option String) :
    (fsm.primaryDir = none → fsm.cwdDir = none → extractFactoryKeys fsm matchKey = [])
  ∧ (∀ files, fsm.primaryDir = some files →
      extractFactoryKeys fsm matchKey =
        extractFactoryKeys ⟨some (files.filter (fun f => (fsm.readFile f).isSome)),
          fsm.cwdDir, fsm.readFile⟩ matchKey) := by
  constructor
  · intro h1 h2
    simp only [extractFactoryKeys, h1, h2]
  · intro files hp
    simp only [extractFactoryKeys, hp]
    rw [List.filter_comm]
    exact foldl_filter_of_id _ _ (by
      intro b a hpa
      cases hr : fsm.readFile a with
      | none => simp only [hr]
      | some c =>
        rw [hr] at hpa
        simp at hpa) (files.filter (fun f => jsFileTest f)) []

/-- Witness for C7: a directory failure yields an empty key set, and a listing
with one unreadable file extracts the same keys as the listing without it. -/
theorem extractFactoryKeys_skips_failed_files_witness :
    extractFactoryKeys ⟨none, none, fun _ => none⟩ (fun _ => none) = []
  ∧ extractFactoryKeys
      ⟨some ["good.js", "bad.js", "late.js", "readme.md"], none,
        fun f => if f = "bad.js" then none else some f⟩
      (fun c => if c = "good.js" then some "alpha"
        else if c = "late.js" then some "omega" else none) =
    extractFactoryKeys
      ⟨some (["good.js", "bad.js", "late.js", "readme.md"].filter
          (fun f => (if f = "bad.js" then (none : Option String) else some f).isSome)),
        none, fun f => if f = "bad.js" then none else some f⟩
      (fun c => if c = "good.js" then some "alpha"
        else if c = "late.js" then some "omega" else none) :=
  ⟨(extractFactoryKeys_skips_failed_files_and_empty_on_dir_failure
      ⟨none, none, fun _ => none⟩ (fun _ => none)).1 rfl rfl,
   (extractFactoryKeys_skips_failed_files_and_empty_on_dir_failure
      ⟨some ["good.js", "bad.js", "late.js", "readme.md"], none,
        fun f => if f = "bad.js" then none else some f⟩
      (fun c => if c = "good.js" then some "alpha"
        else if c = "late.js" then some "omega" else none)).2
      ["good.js", "bad.js", "late.js", "readme.md"] rfl⟩

/-! ## C8 and C9: the worker pool -/

/-- Once a worker has posted an error-status message it stays in the active
set, and while any such worker exists no step can set the resolved flag. -/
theorem poolStep_stuck_blocks_resolution (s t : PoolState) (h : PoolStep s t)
    (hstuck : s.stuck ≠ []) (hres : s.resolvedFlag = false) :
    t.stuck ≠ [] ∧ t.resolvedFlag = false := by
  cases h with
  | completeMsg w hw =>
    cases hstk : s.stuck with
    | nil => exact absurd hstk hstuck
    | cons a l =>
      cases hq : s.queue with
      | cons n r => simp [handleWorkerDone, hq, hstk, hres]
      | nil => simp [handleWorkerDone, hq, hstk, hres]
  | errorEvent w hw =>
    cases hstk : s.stuck with
    | nil => exact absurd hstk hstuck
    | cons a l =>
      cases hq : s.queue with
      | cons n r => simp [handleWorkerDone, hq, hstk, hres]
      | nil => simp [handleWorkerDone, hq, hstk, hres]
  | errorMessage w hw =>
    exact ⟨by simp, hres⟩

/-- C8 (code bug): with one task whose factory file throws, the worker posts
an error-status message that runWithWorkers never handles, so the worker is
never removed from the active set and the pool promise never resolves: no
state reachable from the post-message state has the resolved flag set, so the
pool does not report the failed task as a terminal outcome and merge never
begins. -/
theorem runWithWorkers_unhandled_error_message_blocks_pool :
    PoolStep (poolInit [0] (some 1) 4) ⟨[], [], [0], [], [], false⟩
  ∧ (∀ t, Relation.ReflTransGen PoolStep ⟨[], [], [0], [], [], false⟩ t →
      t.resolvedFlag = false) := by
  constructor
  · have h0 : poolInit [0] (some 1) 4 = ⟨[], [0], [], [], [], false⟩ := by
      with_unfolding_all rfl
    rw [h0]
    exact PoolStep.errorMessage ⟨[], [0], [], [], [], false⟩ 0 (by simp)
  · intro t ht
    have hinv : ∀ u, Relation.ReflTransGen PoolStep
        (⟨[], [], [0], [], [], false⟩ : PoolState) u →
        u.stuck ≠ [] ∧ u.resolvedFlag = false := by
      intro u hu
      induction hu with
      | refl => exact ⟨by simp, rfl⟩
      | tail hab hbc ih => exact poolStep_stuck_blocks_resolution _ _ hbc ih.1 ih.2
    exact (hinv t ht).2

/-- Witness for C8: the post-message state itself is reachable and
unresolved. -/
theorem runWithWorkers_unhandled_error_message_blocks_pool_witness :
    (⟨[], [], [0], [], [], false⟩ : PoolState).resolvedFlag = false :=
  runWithWorkers_unhandled_error_message_blocks_pool.2
    ⟨[], [], [0], [], [], false⟩ Relation.ReflTransGen.refl

/-- C9 (code bug): when the configured maximum worker count is 0, the value 0
is passed explicitly to runWithWorkers, so the CPU-count default does not
apply; the worker count becomes min 0 n = 0, the initial batch is empty, and
the pool resolves immediately with every task still in the queue, no live
worker, and no recorded outcome — the tasks are skipped. -/
theorem runWithWorkers_zero_max_workers_resolves_without_processing
    (files : List Nat) (cpuCount : Nat) :
    poolInit files (some 0) cpuCount = ⟨files, [], [], [], [], true⟩ := by
  unfold poolInit
  simp

/-! ## C10: the reserved repeat field never reaches a record -/

theorem hasField_true_iff (fs : List (String × JsVal)) (k : String) :
    hasField (JsVal.obj fs) k = true ↔ k ∈ keysOf fs := by
  unfold hasField keysOf
  constructor
  · intro h
    rw [List.any_eq_true] at h
    obtain ⟨p, hp, hpk⟩ := h
    simp only [decide_eq_true_eq] at hpk
    exact hpk ▸ List.mem_map_of_mem (fun p => p.1) hp
  · intro h
    rw [List.any_eq_true]
    simp only [List.mem_map] at h
    obtain ⟨p, hp, rfl⟩ := h
    exact ⟨p, hp, by simp⟩

theorem hasField_mkItem_repeat (templateOut : List (String × JsVal)) (i : Nat) :
    hasField (JsVal.obj (mkItem templateOut i)) "_repeat" = false := by
  have hnot : "_repeat" ∉ keysOf (mkItem templateOut i) := by
    unfold mkItem
    rw [mem_keysOf_objSpreadInto]
    push_neg
    constructor
    · simp [keysOf]
    · rw [keysOf_objDelete]
      simp
  cases hfa : hasField (JsVal.obj (mkItem templateOut i)) "_repeat" with
  | false => rfl
  | true => exact absurd ((hasField_true_iff _ _).mp hfa) hnot

/-- C10: every record produced by createMockData (single-instance or
repeated-sequence form) carries no reserved repeat field, even when the
template output itself contains one: the field is deleted from the
materialized copy before the id is attached. -/
theorem createMockData_records_contain_no_repeat_field
    (config : FactoryConfig) (templateFn : Nat → List (String × JsVal)) (res : MockResult)
    (h : createMockData config templateFn = .ok res) :
    ∀ r ∈ recordsUnderKey res.data, hasField r "_repeat" = false := by
  simp only [createMockData] at h
  cases hk : config.keyField with
  | none =>
    rw [hk] at h
    simp only [] at h
    exact Except.noConfusion h
  | some kv =>
    rw [hk] at h
    simp only [] at h
    cases kv with
    | str s =>
      simp only [] at h
      by_cases htrim : trimsToEmpty s = true
      · rw [if_pos htrim] at h
        exact Except.noConfusion h
      · rw [if_neg htrim] at h
        cases hrep : config.repeatField with
        | none =>
          rw [hrep] at h
          simp only [] at h
          rw [if_neg (by norm_num : ¬ ((1 : ℚ) < 0))] at h
          rw [if_neg (by simp : ¬ ((Option.isSome (none : Option ℚ)) = true ∨ (1 : ℚ) > 1))] at h
          injection h with h2
          subst h2
          intro r hr
          simp only [recordsUnderKey, recordsOf] at hr
          rw [List.mem_singleton] at hr
          subst hr
          exact hasField_mkItem_repeat _ _
        | some rq =>
          rw [hrep] at h
          simp only [] at h
          by_cases hz : rq = 0
          · rw [if_pos hz] at h
            rw [if_neg (by norm_num : ¬ ((1 : ℚ) < 0))] at h
            have hcond : ((some rq).isSome = true) ∨ ((1 : ℚ) > 1) := Or.inl rfl
            rw [if_pos hcond] at h
            injection h with h2
            subst h2
            intro r hr
            simp only [recordsUnderKey, recordsOf] at hr
            obtain ⟨i, _, rfl⟩ := List.mem_map.mp hr
            exact hasField_mkItem_repeat _ _
          · rw [if_neg hz] at h
            by_cases hneg : rq < 0
            · rw [if_pos hneg] at h
              exact Except.noConfusion h
            · rw [if_neg hneg] at h
              have hcond : ((some rq).isSome = true) ∨ (rq > 1) := Or.inl rfl
              rw [if_pos hcond] at h
              injection h with h2
              subst h2
              intro r hr
              simp only [recordsUnderKey, recordsOf] at hr
              obtain ⟨i, _, rfl⟩ := List.mem_map.mp hr
              exact hasField_mkItem_repeat _ _
    | null =>
      simp only [] at h
      exact Except.noConfusion h
    | boolVal b =>
      simp only [] at h
      exact Except.noConfusion h
    | num q =>
      simp only [] at h
      exact Except.noConfusion h
    | arr l =>
      simp only [] at h
      exact Except.noConfusion h
    | obj fs =>
      simp only [] at h
      exact Except.noConfusion h

/-- Witness for C10: a template output that itself contains a reserved repeat
field, whose materialized record drops it. -/
theorem createMockData_records_contain_no_repeat_field_witness :
    createMockData ⟨some (JsVal.str "k"), none⟩
      (fun _ => [("_repeat", JsVal.num 7), ("x", JsVal.num 1)]) =
      .ok ⟨"k", JsVal.obj [("k", JsVal.obj [("id", JsVal.num 1), ("x", JsVal.num 1)])]⟩
  ∧ hasField (JsVal.obj [("id", JsVal.num 1), ("x", JsVal.num 1)]) "_repeat" = false :=
  ⟨by with_unfolding_all rfl,
    createMockData_records_contain_no_repeat_field ⟨some (JsVal.str "k"), none⟩
      (fun _ => [("_repeat", JsVal.num 7), ("x", JsVal.num 1)])
      ⟨"k", JsVal.obj [("k", JsVal.obj [("id", JsVal.num 1), ("x", JsVal.num 1)])]⟩
      (by with_unfolding_all rfl)
      (JsVal.obj [("id", JsVal.num 1), ("x", JsVal.num 1)])
      (by simp [recordsUnderKey, recordsOf])⟩

end MockServer
